import Mathlib

/-!
Verification development for the learning core of a model-based RL agent
(`models.py`): the reward EMA normalizer, the world-model preprocessing step,
the imagination rollout, the lambda-return target computation, the actor-loss
variants, and the train-step control flow of the two behavior learners.

Modelling conventions.
Tensors of reals are embedded as lists of rational numbers; operations that
are elementwise over the batch axis are modelled pointwise, with lists laid
out time-major.  A value carries a boolean flag `g` recording whether it is
connected to the autograd graph: `detach` clears the flag, arithmetic takes
the disjunction of its operands' flags, fresh constants are off-graph.
Fallible code returns `Except PyErr`.  Neural networks (encoder, actor,
critics, dynamics) live in `networks.py`, outside the modelled core; they are
taken as function parameters.
-/

/-- A scalar with a gradient-graph flag: `v` is the numeric value, `g` is
true when the value is connected to the autograd graph. -/
structure GV where
  v : ℚ
  g : Bool
deriving DecidableEq, Repr

/-- A fresh constant, not connected to the autograd graph. -/
def GV.c (q : ℚ) : GV := ⟨q, false⟩

def GV.zero : GV := ⟨0, false⟩

def GV.one : GV := ⟨1, false⟩

/-- `Tensor.detach()`: same value, severed from the graph. -/
def GV.detach (x : GV) : GV := ⟨x.v, false⟩

def GV.add (x y : GV) : GV := ⟨x.v + y.v, x.g || y.g⟩

def GV.sub (x y : GV) : GV := ⟨x.v - y.v, x.g || y.g⟩

def GV.mul (x y : GV) : GV := ⟨x.v * y.v, x.g || y.g⟩

def GV.div (x y : GV) : GV := ⟨x.v / y.v, x.g || y.g⟩

def GV.neg (x : GV) : GV := ⟨-x.v, x.g⟩

/-- Elementwise `torch.min` of two on-graph scalars. -/
def GV.min (x y : GV) : GV := ⟨Min.min x.v y.v, x.g || y.g⟩

/-- `torch.clip(x, min=m)`. -/
def GV.clipMin (x : GV) (m : ℚ) : GV := ⟨Max.max x.v m, x.g⟩

/-- The elementwise mean of two critic outputs — a combination rule the
twin-critic target must NOT use. -/
def twinMean (a b : GV) : GV := ⟨(a.v + b.v) / 2, a.g || b.g⟩

/-- The elementwise maximum of two critic outputs — a combination rule the
twin-critic target must NOT use. -/
def twinMax (a b : GV) : GV := ⟨Max.max a.v b.v, a.g || b.g⟩

instance : Add GV := ⟨GV.add⟩

instance : Sub GV := ⟨GV.sub⟩

instance : Mul GV := ⟨GV.mul⟩

instance : Div GV := ⟨GV.div⟩

instance : Neg GV := ⟨GV.neg⟩

/-- The Python exceptions the modelled code can raise. -/
inductive PyErr where
  | assertionError
  | attributeError
  | nameError
deriving DecidableEq, Repr

/-- `torch.quantile(input, q)` with the default linear interpolation:
sort ascending, take position `q * (n - 1)`, interpolate linearly between
the two neighbouring order statistics. -/
def quantileLinear (l : List ℚ) (q : ℚ) : ℚ :=
  let s := List.insertionSort (· ≤ ·) l
  let n := s.length
  let pos : ℚ := q * ((n : ℚ) - 1)
  let i : ℕ := (Int.floor pos).toNat
  let fr : ℚ := pos - (i : ℚ)
  let a := s.getD i 0
  let b := s.getD (Min.min (i + 1) (n - 1)) 0
  a + fr * (b - a)

/-- Quantile of a tensor of graph-tracked scalars; the output is on the graph
iff some input is (for `torch.quantile` the output requires grad iff the
input does). -/
def quantGV (l : List GV) (q : ℚ) : GV :=
  ⟨quantileLinear (l.map GV.v) q, l.any GV.g⟩

namespace RewardEMA

/-- Default of the `alpha` argument of `RewardEMA.__init__` (`alpha=1e-2`). -/
def defaultAlpha : ℚ := 1 / 100

/-- First entry of `self.range = torch.tensor([0.05, 0.95])`. -/
def range05 : ℚ := 1 / 20

/-- Second entry of `self.range`. -/
def range95 : ℚ := 19 / 20

/-- `RewardEMA.__call__(x, ema_vals)`: flatten and detach the batch, take the
`[0.05, 0.95]` quantiles, update the 2-element buffer in place as
`ema_vals[:] = alpha * x_quantile + (1 - alpha) * ema_vals`, and return
`(offset, scale) = (ema_vals[0].detach(), clip(ema_vals[1] - ema_vals[0], min=1.0).detach())`.
The result is `((offset, scale), buffer-after-call)`; the multi-dimensional
input batch `x` is a list of rows, flattened by `List.flatten`. -/
def call (alpha : ℚ) (x : List (List GV)) (ema : GV × GV) : (GV × GV) × (GV × GV) :=
  let flat_x := x.flatten.map GV.detach
  let q05 := quantGV flat_x range05
  let q95 := quantGV flat_x range95
  let e0 := GV.c alpha * q05 + GV.c (1 - alpha) * ema.1
  let e1 := GV.c alpha * q95 + GV.c (1 - alpha) * ema.2
  let scale := GV.clipMin (e1 - e0) 1
  let offset := e0
  ((offset.detach, scale.detach), (e0, e1))

end RewardEMA

/-- Modelled from the spec: `tools.static_scan` (the scan/fold primitive of
the external interfaces section; `tools.py` is not part of the modelled
sources).  It applies the step function sequentially over a leading time
axis of length `n`, threading the step function's output as the next input
and collecting the per-step outputs into a sequence.  Here the per-step
inputs (`torch.arange(horizon)` in `_imagine`) carry no information, so the
step function takes the carried value alone. -/
def static_scan {σ : Type} (f : σ → σ) : ℕ → σ → List σ
  | 0, _ => []
  | n + 1, s => f s :: static_scan f n (f s)

namespace ImagBehavior

/-- The body of the `step` closure of `ImagBehavior._imagine`, applied to the
flat batch of states: compute features from the current state, detach them,
sample an action from the policy on the detached features, advance the state
via `img_step`; return `(succ, feat, action)`.  `get_feat`, `policy` (the
composite of the actor network and its sampler) and `img_step` belong to
`networks.py` and are taken as parameters. -/
def imagineStep {S A : Type} (get_feat : S → GV) (policy : GV → A)
    (img_step : S → A → S) (st : List S) : List S × List GV × List A :=
  let feat := st.map get_feat
  let inp := feat.map GV.detach
  let action := inp.map policy
  let succ := List.zipWith img_step st action
  (succ, feat, action)

/-- `ImagBehavior._imagine(start, policy, horizon)`: flatten the
(batch, time) leading dimensions of the start state into one flat batch
dimension, scan `step` over `torch.arange(horizon)` starting from
`(start, None, None)`, and return
`(feats, cat([start[None], succ[:-1]], 0), actions)`.  The start state is a
(batch, time) grid of latent states, flattened by `List.flatten`; the three
results are time-major lists of flat batches. -/
def imagine {S A : Type} (get_feat : S → GV) (policy : GV → A)
    (img_step : S → A → S) (horizon : ℕ) (start : List (List S)) :
    List (List GV) × List (List S) × List (List A) :=
  let flat := start.flatten
  let outs := static_scan (fun p => imagineStep get_feat policy img_step p.1)
    horizon (flat, ([] : List GV), ([] : List A))
  let succ := outs.map (·.1)
  let feats := outs.map (·.2.1)
  let actions := outs.map (·.2.2)
  let states := flat :: succ.dropLast
  (feats, states, actions)

end ImagBehavior

/-- Concrete state-feature map used to evaluate `imagine` on closed inputs. -/
def cGF : ℚ → GV := fun s => ⟨s, true⟩

/-- Concrete policy used to evaluate `imagine` on closed inputs. -/
def cPol : GV → ℚ := fun f => f.v

/-- Concrete one-step dynamics used to evaluate `imagine` on closed inputs. -/
def cStep : ℚ → ℚ → ℚ := fun s a => s + a

/-- `torch.cumprod(l, 0)`: running products along the time axis. -/
def cumprod : List GV → List GV
  | [] => []
  | x :: xs => x :: (cumprod xs).map (fun y => x * y)

/-- The weight computation shared verbatim by `ImagBehavior._compute_target`
and `Behavior._compute_target`:
`torch.cumprod(torch.cat([torch.ones_like(discount[:1]), discount[:-1]], 0), 0).detach()`. -/
def weights_of (d : List GV) : List GV :=
  (cumprod ((d.take 1).map (fun _ => GV.one) ++ d.dropLast)).map GV.detach

/-- The backward accumulation inside `lambda_return`:
`ret[t] = inputs[t] + pcont[t] * lambda * ret[t+1]`, with the bootstrap as
the accumulator seed past the end. -/
def lambdaReturnScan (lam : ℚ) (bootstrap : GV) : List (GV × GV) → List GV
  | [] => []
  | ip :: rest =>
    let tl := lambdaReturnScan lam bootstrap rest
    (ip.1 + ip.2 * GV.c lam * tl.headD bootstrap) :: tl

/-- Modelled from the spec: `tools.lambda_return` (`tools.py` is not part of
the modelled sources).  The generalized lambda-return computed strictly
backward in time:
`return[t] = reward[t] + discount[t] * ((1 - lambda) * value[t+1] + lambda * return[t+1])`
with `return[T] = bootstrap` and `value[T] = bootstrap`. -/
def lambdaReturn (lam : ℚ) (reward value pcont : List GV) (bootstrap : GV) : List GV :=
  let nextv := value.drop 1 ++ [bootstrap]
  let inputs := List.zipWith (fun r pn => r + pn.1 * pn.2 * GV.c (1 - lam))
    reward (List.zipWith Prod.mk pcont nextv)
  lambdaReturnScan lam bootstrap (List.zipWith Prod.mk inputs pcont)

namespace ImagBehavior

/-- The discount sequence of `ImagBehavior._compute_target`: when the world
model has a `cont` head, `config.discount * cont_head(feat).mean` (the head's
predicted mean is the parameter `contMean`); otherwise
`config.discount * torch.ones_like(reward)`. -/
def imag_discount (c : ℚ) (hasCont : Bool) (contMean reward : List GV) : List GV :=
  if hasCont then contMean.map (fun m => GV.c c * m)
  else reward.map (fun _ => GV.c c * GV.one)

/-- `ImagBehavior._compute_target(imag_feat, imag_state, reward)`: compute the
discount, evaluate the critic mode on the features (parameter `value`, for
`self.value(imag_feat).mode()`), compute the lambda-return over
`reward[1:], value[:-1], discount[1:]` with bootstrap `value[-1]`, and the
detached cumulative-product weights; return `(target, weights, value[:-1])`. -/
def compute_target (c lam : ℚ) (hasCont : Bool) (contMean value reward : List GV) :
    List GV × List GV × List GV :=
  let discount := imag_discount c hasCont contMean reward
  let target := lambdaReturn lam (reward.drop 1) value.dropLast (discount.drop 1)
    ((value.getLast?).getD GV.zero)
  let weights := weights_of discount
  (target, weights, value.dropLast)

end ImagBehavior

/-- The per-timestep actor-loss modes of `ImagBehavior` (`config.imag_gradient`). -/
inductive IGrad where
  | dynamics
  | reinforce
  | both
deriving DecidableEq, Repr

/-- The per-timestep actor-loss modes of `Behavior` (`config.mf_gradient`). -/
inductive MFGrad where
  | dynamics
  | reinforce
  | both
  | td3
deriving DecidableEq, Repr

namespace ImagBehavior

/-- `ImagBehavior._compute_actor_loss(imag_feat, imag_action, target, weights, base)`,
time-major with the batch axis modelled pointwise.  `target` is the stacked
lambda-return (length H-1), `base` is `value[:-1]`, `logpi` stands for
`self.actor(imag_feat.detach()).log_prob(imag_action)` (length H), `value`
for `self.value(imag_feat[:-1]).mode()` (length H-1), `weights` has length H.
When `reward_EMA` is enabled the EMA buffer is updated in place (returned as
the second component); in mode `dynamics` the normalized advantage `adv` is
only bound inside the `reward_EMA` branch, so with `reward_EMA` disabled the
reference to `adv` raises an unbound-local error. -/
def compute_actor_loss (reward_EMA : Bool) (alpha : ℚ) (mode : IGrad) (mix : ℚ)
    (ema : GV × GV) (target base logpi value weights : List GV) :
    Except PyErr (List GV × (GV × GV)) :=
  let emaRes := if reward_EMA then some (RewardEMA.call alpha [target] ema) else none
  let ema2 := match emaRes with
    | some r => r.2
    | none => ema
  let advOpt := match emaRes with
    | some r =>
      let offset := r.1.1
      let scale := r.1.2
      let normed_target := target.map (fun t => (t - offset) / scale)
      let normed_base := base.map (fun b => (b - offset) / scale)
      some (List.zipWith GV.sub normed_target normed_base)
    | none => none
  match mode with
  | .dynamics =>
    match advOpt with
    | some adv => .ok (List.zipWith (fun w a => -(w * a)) weights.dropLast adv, ema2)
    | none => .error PyErr.nameError
  | .reinforce =>
    .ok (List.zipWith (fun w a => -(w * a)) weights.dropLast
      (List.zipWith (fun lp tv => lp * tv) logpi.dropLast
        (List.zipWith (fun t v => (t - v).detach) target value)), ema2)
  | .both =>
    .ok (List.zipWith (fun w a => -(w * a)) weights.dropLast
      (List.zipWith (fun t r => GV.c mix * t + GV.c (1 - mix) * r) target
        (List.zipWith (fun lp tv => lp * tv) logpi.dropLast
          (List.zipWith (fun t v => (t - v).detach) target value))), ema2)

end ImagBehavior

namespace Behavior

/-- `Behavior._compute_target(feat, state, reward, discount)`: evaluate both
critic modes on the same features, take their elementwise minimum as the
value sequence, compute the lambda-return over
`reward[1:], value[:-1], discount[1:]` with bootstrap `value[-1]`, and the
detached cumulative-product weights; return `(target, weights, value[:-1])`.
`critic1`/`critic2` stand for `self.value_1(·).mode()` / `self.value_2(·).mode()`. -/
def compute_target (lam : ℚ) (critic1 critic2 : List GV → List GV)
    (feat reward discount : List GV) : List GV × List GV × List GV :=
  let value_1 := critic1 feat
  let value_2 := critic2 feat
  let value := List.zipWith GV.min value_1 value_2
  let target := lambdaReturn lam (reward.drop 1) value.dropLast (discount.drop 1)
    ((value.getLast?).getD GV.zero)
  let weights := weights_of discount
  (target, weights, value.dropLast)

/-- `Behavior._compute_actor_loss(feat, action, target, weights, base, state)`,
modelled like `ImagBehavior.compute_actor_loss` but with the `mf_gradient`
modes; `value1` stands for `self.value_1(feat[:-1]).mode()` and `td3value`
for `self.value_1(get_feat(img_step(state, policy.sample()))).mean()`, used
only by the `td3` branch (`actor_loss = -value[:-1]`, no weights and no
entropy/EMA terms). -/
def compute_actor_loss (reward_EMA : Bool) (alpha : ℚ) (mode : MFGrad) (mix : ℚ)
    (ema : GV × GV) (target base logpi value1 td3value weights : List GV) :
    Except PyErr (List GV × (GV × GV)) :=
  let emaRes := if reward_EMA then some (RewardEMA.call alpha [target] ema) else none
  let ema2 := match emaRes with
    | some r => r.2
    | none => ema
  let advOpt := match emaRes with
    | some r =>
      let offset := r.1.1
      let scale := r.1.2
      let normed_target := target.map (fun t => (t - offset) / scale)
      let normed_base := base.map (fun b => (b - offset) / scale)
      some (List.zipWith GV.sub normed_target normed_base)
    | none => none
  match mode with
  | .dynamics =>
    match advOpt with
    | some adv => .ok (List.zipWith (fun w a => -(w * a)) weights.dropLast adv, ema2)
    | none => .error PyErr.nameError
  | .reinforce =>
    .ok (List.zipWith (fun w a => -(w * a)) weights.dropLast
      (List.zipWith (fun lp tv => lp * tv) logpi.dropLast
        (List.zipWith (fun t v => (t - v).detach) target value1)), ema2)
  | .both =>
    .ok (List.zipWith (fun w a => -(w * a)) weights.dropLast
      (List.zipWith (fun t r => GV.c mix * t + GV.c (1 - mix) * r) target
        (List.zipWith (fun lp tv => lp * tv) logpi.dropLast
          (List.zipWith (fun t v => (t - v).detach) target value1))), ema2)
  | .td3 =>
    .ok (td3value.dropLast.map GV.neg, ema2)

end Behavior

/-- The `both`-mode actor loss exactly as both `_compute_actor_loss`
implementations compute it:
`-weights[:-1] * (mix * target + (1 - mix) * log_prob[:-1] * (target - value).detach())`. -/
def bothActorLoss (mix : ℚ) (target logpi value weights : List GV) : List GV :=
  List.zipWith (fun w a => -(w * a)) weights.dropLast
    (List.zipWith (fun t r => GV.c mix * t + GV.c (1 - mix) * r) target
      (List.zipWith (fun lp tv => lp * tv) logpi.dropLast
        (List.zipWith (fun t v => (t - v).detach) target value)))

/-- The `both`-mode actor loss as the claim's words describe it (comparison
definition following the spec, not the source): the dynamics-style target
mixed in is the EMA-normalized advantage `adv`, not the raw target. -/
def claimedBothActorLoss (alpha mix : ℚ) (ema : GV × GV)
    (target base logpi value weights : List GV) : List GV :=
  let r := RewardEMA.call alpha [target] ema
  let offset := r.1.1
  let scale := r.1.2
  let normed_target := target.map (fun t => (t - offset) / scale)
  let normed_base := base.map (fun b => (b - offset) / scale)
  let adv := List.zipWith GV.sub normed_target normed_base
  List.zipWith (fun w a => -(w * a)) weights.dropLast
    (List.zipWith (fun t r2 => GV.c mix * t + GV.c (1 - mix) * r2) adv
      (List.zipWith (fun lp tv => lp * tv) logpi.dropLast
        (List.zipWith (fun t v => (t - v).detach) target value)))

/-- `Tensor.clamp(x, lo, hi)` on rationals. -/
def clampQ (x lo hi : ℚ) : ℚ := Max.max lo (Min.min x hi)

namespace Behavior

/-- The noise applied per action component in `Behavior._data_sample`:
`(torch.rand_like(actions) * 0.2).clamp(-0.5, 0.5)` evaluated at one uniform
draw `u` from `[0, 1)`.  The clamp is applied to the scaled draw, not to the
summed action. -/
def noise_of (u : ℚ) : ℚ := clampQ (u * (1 / 5)) (-(1 / 2)) (1 / 2)

/-- Whether some uniform draw `u` from `[0, 1)` can produce the noise value `y`. -/
def noise_attains (y : ℚ) : Prop := ∃ u : ℚ, 0 ≤ u ∧ u < 1 ∧ noise_of u = y

/-- The speculative extra step of `Behavior._data_sample`: per batch element,
sample the actor on the real posterior features, add the noise, advance one
step via `img_step`, and read the next-step features.  `us` is the list of
uniform draws behind `torch.rand_like`; the action axis is modelled
pointwise. -/
def speculative_step {S : Type} (get_feat : S → GV) (img_step : S → ℚ → S)
    (actor_sample : GV → ℚ) (states : List S) (us : List ℚ) : List GV :=
  let feats := states.map get_feat
  let noise := us.map noise_of
  let noise_actions := List.zipWith (fun f n => actor_sample f + n) feats noise
  let noise_states := List.zipWith img_step states noise_actions
  noise_states.map get_feat

end Behavior

/-- A tensor with an explicit shape, for the preprocessing step where a
trailing singleton dimension is added. -/
structure PTensor where
  shape : List ℕ
  data : List ℚ
deriving DecidableEq, Repr

/-- Elementwise transformation, shape preserved. -/
def PTensor.mapData (t : PTensor) (f : ℚ → ℚ) : PTensor := ⟨t.shape, t.data.map f⟩

/-- `Tensor.unsqueeze(-1)`: append a trailing singleton dimension. -/
def PTensor.unsqueezeLast (t : PTensor) : PTensor := ⟨t.shape ++ [1], t.data⟩

/-- The input batch of `WorldModel.preprocess`, with the fields the function
touches; `image` is always present per the batch-dictionary contract, the
`is_first`/`is_terminal` flags may be absent (the asserted preconditions).
Other keys pass through unchanged and are not modelled. -/
structure Obs where
  image : PTensor
  discount : Option PTensor
  is_first : Option PTensor
  is_terminal : Option PTensor
deriving DecidableEq, Repr

/-- The preprocessed batch returned by `WorldModel.preprocess`. -/
structure PObs where
  image : PTensor
  discount : Option PTensor
  cont : PTensor
  is_first : PTensor
  is_terminal : PTensor
deriving DecidableEq, Repr

namespace WorldModel

/-- `WorldModel.preprocess(obs)`: divide the image by 255, scale the discount
field (if present) by `config.discount` and unsqueeze a trailing singleton
dimension, assert that `is_first` and `is_terminal` are present, and add
`cont = 1 - is_terminal` with a trailing singleton dimension.  The asserts
sit after the image/discount lines in the source, which does not affect the
result; the final `.to(device)` is the identity here. -/
def preprocess (discountCfg : ℚ) (obs : Obs) : Except PyErr PObs :=
  let image := obs.image.mapData (fun p => p / 255)
  let discount := obs.discount.map (fun d => (d.mapData (fun q => q * discountCfg)).unsqueezeLast)
  match obs.is_first with
  | none => .error PyErr.assertionError
  | some isf =>
    match obs.is_terminal with
    | none => .error PyErr.assertionError
    | some ist =>
      .ok { image := image, discount := discount,
            cont := (ist.mapData (fun q => 1 - q)).unsqueezeLast,
            is_first := isf, is_terminal := ist }

end WorldModel

/-- The interface of a critic network: the distribution's mode at a feature
batch, and its log-probability of a target batch (`networks.MLP` lives
outside the modelled core). -/
structure Critic where
  modeAt : List GV → List GV
  logProbAt : List GV → List GV → List GV

/-- The mean of a loss tensor (`torch.mean`). -/
def meanGV (l : List GV) : GV := ⟨(l.map GV.v).sum / (l.length : ℚ), l.any GV.g⟩

namespace ImagBehavior

/-- The `_slow_value` attribute created by `ImagBehavior.__init__`: a deep
copy of the critic when `config.critic["slow_target"]` is true, otherwise no
attribute at all. -/
def init_slow_value (slow_target : Bool) (value : Critic) : Option Critic :=
  if slow_target then some value else none

/-- The critic-loss phase of `ImagBehavior._train`: evaluate the critic on
detached `value_input[:-1]`, take `-log_prob` of the detached stacked
target, evaluate `self._slow_value` on the same input (an unconditional
attribute access that fails when the attribute was never created), subtract
the log-probability of the slow critic's detached mode when
`slow_target` is configured, and average with the detached weights. -/
def value_loss_phase (slow_target : Bool) (slow_value : Option Critic) (value : Critic)
    (value_input target weights : List GV) : Except PyErr GV :=
  let inp := value_input.dropLast.map GV.detach
  let lp := value.logProbAt inp (target.map GV.detach)
  let vloss := lp.map GV.neg
  match slow_value with
  | none => .error PyErr.attributeError
  | some sv =>
    let slowMode := (sv.modeAt inp).map GV.detach
    let vloss2 := if slow_target then
        List.zipWith GV.sub vloss (value.logProbAt inp slowMode)
      else vloss
    .ok (meanGV (List.zipWith GV.mul weights.dropLast vloss2))

end ImagBehavior

namespace Behavior

/-- The `_slow_value_1`/`_slow_value_2` attributes created by
`Behavior.__init__`: deep copies of the critics when
`config.critic["slow_target"]` is true, otherwise no attributes at all. -/
def init_slow_value (slow_target : Bool) (value : Critic) : Option Critic :=
  if slow_target then some value else none

/-- The twin-critic-loss phase of `Behavior._train`: evaluate both critics on
detached `value_input[:-1]`, sum their `-log_prob` of the detached stacked
target, evaluate `self._slow_value_1` and `self._slow_value_2` on the same
input (unconditional attribute accesses), subtract both slow log-probability
terms when `slow_target` is configured, and average with the detached
weights.  The elementwise minimum of the critic modes is only used for
metrics and is omitted. -/
def value_loss_phase (slow_target : Bool) (slow1 slow2 : Option Critic) (v1 v2 : Critic)
    (value_input target weights : List GV) : Except PyErr GV :=
  let inp := value_input.dropLast.map GV.detach
  let lp1 := v1.logProbAt inp (target.map GV.detach)
  let lp2 := v2.logProbAt inp (target.map GV.detach)
  let vloss := List.zipWith GV.add (lp1.map GV.neg) (lp2.map GV.neg)
  match slow1 with
  | none => .error PyErr.attributeError
  | some s1 =>
    match slow2 with
    | none => .error PyErr.attributeError
    | some s2 =>
      let sm1 := (s1.modeAt inp).map GV.detach
      let sm2 := (s2.modeAt inp).map GV.detach
      let vloss2 := if slow_target then
          List.zipWith GV.sub vloss
            (List.zipWith GV.add (v1.logProbAt inp sm1) (v2.logProbAt inp sm2))
        else vloss
      .ok (meanGV (List.zipWith GV.mul weights.dropLast vloss2))

/-- The two throttles on the actor update in `Behavior._train`: the call
counter `self.total_it` is incremented on entry; `actor_loss` is assigned
only when the counter is divisible by `mf_policy_freq`; the actor optimizer
step runs whenever the counter is even and reads `actor_loss`, a local
variable of the current call.  Returns the new counter and whether the actor
stepped, or the unbound-local error. -/
def train_throttle (mf_policy_freq : ℕ) (total_it : ℕ) : Except PyErr (ℕ × Bool) :=
  let c := total_it + 1
  let hasLoss := c % mf_policy_freq == 0
  if c % 2 == 0 then
    if hasLoss then .ok (c, true) else .error PyErr.nameError
  else .ok (c, false)

end Behavior

/-- Concrete critic-1 mode map used to evaluate the twin-critic target on
closed inputs. -/
def cCrit1 : List GV → List GV := fun l => l

/-- Concrete critic-2 mode map used to evaluate the twin-critic target on
closed inputs. -/
def cCrit2 : List GV → List GV := fun l => l.map (fun x => x + GV.one)

/-- Concrete batch with all required flags present, for evaluating
`preprocess` on closed inputs. -/
def cObs : Obs :=
  { image := ⟨[2, 2], [0, 255, 51, 102]⟩,
    discount := some ⟨[2], [1, 1]⟩,
    is_first := some ⟨[2], [1, 0]⟩,
    is_terminal := some ⟨[2], [0, 1]⟩ }

/-- Concrete batch missing `is_first`, for evaluating `preprocess` on closed
inputs. -/
def cObsMissing : Obs :=
  { image := ⟨[1], [0]⟩, discount := none, is_first := none,
    is_terminal := some ⟨[1], [0]⟩ }

/-- Helper: `GV.v` after `GV.detach` is `GV.v`. -/
theorem v_comp_detach : GV.v ∘ GV.detach = GV.v := rfl

/-- Helper: mapping `GV.v` after `GV.detach` is just mapping `GV.v`. -/
theorem detach_map_v (l : List GV) : (l.map GV.detach).map GV.v = l.map GV.v := by
  induction l with
  | nil => rfl
  | cons x xs ih => simp [List.map, GV.detach, ih]

/-- C1: `RewardEMA.__call__` computes the empirical 5th/95th percentile of the
flattened detached batch, updates the 2-element buffer in place as
`ema = alpha * quantile + (1 - alpha) * ema` (alpha defaults to 0.01), and
returns `offset = ema[0]` and `scale = max(ema[1] - ema[0], 1.0)`, both
detached; the returned scale is never below 1.0. -/
theorem rewardEMA_call_spec (alpha : ℚ) (x : List (List GV)) (ema : GV × GV)
    (offset scale e0 e1 : GV) (hx : x.flatten ≠ [])
    (hcall : RewardEMA.call alpha x ema = ((offset, scale), (e0, e1))) :
    e0.v = alpha * quantileLinear (x.flatten.map GV.v) RewardEMA.range05 + (1 - alpha) * ema.1.v
    ∧ e1.v = alpha * quantileLinear (x.flatten.map GV.v) RewardEMA.range95 + (1 - alpha) * ema.2.v
    ∧ offset = ⟨e0.v, false⟩
    ∧ scale = ⟨Max.max (e1.v - e0.v) 1, false⟩
    ∧ 1 ≤ scale.v
    ∧ RewardEMA.defaultAlpha = 1 / 100 := by
  unfold RewardEMA.call at hcall
  simp only [Prod.mk.injEq] at hcall
  obtain ⟨⟨ho, hs⟩, he0, he1⟩ := hcall
  subst ho hs he0 he1
  refine ⟨?_, ?_, rfl, ?_, ?_, rfl⟩
  · simp [quantGV, GV.c, GV.add, GV.mul, detach_map_v, v_comp_detach,
      HMul.hMul, HAdd.hAdd, Add.add, Mul.mul]
  · simp [quantGV, GV.c, GV.add, GV.mul, detach_map_v, v_comp_detach,
      HMul.hMul, HAdd.hAdd, Add.add, Mul.mul]
  · simp [GV.clipMin, GV.detach, GV.sub, HSub.hSub, Sub.sub]
  · simp [GV.clipMin, GV.detach]

/-- Helper: closed form of `static_scan` as iterates of the step function. -/
theorem static_scan_eq {σ : Type} (f : σ → σ) (n : ℕ) (s : σ) :
    static_scan f n s = (List.range n).map (fun i => f^[i + 1] s) := by
  induction n generalizing s with
  | zero => rfl
  | succ n ih =>
    have hfe : (fun i => f^[i + 1] (f s)) = ((fun i => f^[i + 1] s) ∘ Nat.succ) := by
      funext i
      exact (Function.iterate_succ_apply f (i + 1) s).symm
    rw [static_scan, ih (f s), hfe, List.range_succ_eq_map, List.map_cons, List.map_map]
    rfl

/-- Helper: length of a `static_scan`. -/
theorem static_scan_length {σ : Type} (f : σ → σ) (n : ℕ) (s : σ) :
    (static_scan f n s).length = n := by
  rw [static_scan_eq]; simp

/-- Helper: entries of a `static_scan`. -/
theorem static_scan_get? {σ : Type} (f : σ → σ) (n i : ℕ) (s : σ) (h : i < n) :
    (static_scan f n s).get? i = some (f^[i + 1] s) := by
  rw [static_scan_eq, List.get?_map, List.get?_range h]; rfl

/-- Helper: `get?` of `dropLast` agrees with `get?` away from the last entry. -/
theorem dropLast_get? {α : Type} (l : List α) (i : ℕ) (h : i + 1 < l.length) :
    l.dropLast.get? i = l.get? i := by
  induction l generalizing i with
  | nil => simp at h
  | cons x xs ih =>
    cases xs with
    | nil => simp at h
    | cons y ys =>
      cases i with
      | zero => rfl
      | succ k =>
        have hk : k + 1 < (y :: ys).length := by
          simpa [List.length] using Nat.lt_of_succ_lt_succ h
        simpa [List.dropLast, List.get?] using ih k hk

/-- Helper: the scan step of `_imagine` only reads the carried state, so its
iterates are governed by the state-only iterates. -/
theorem imagineStep_iter {S A : Type} (gf : S → GV) (pol : GV → A) (istp : S → A → S)
    (k : ℕ) (a : List S) (b : List GV) (c : List A) :
    (fun q : List S × List GV × List A => ImagBehavior.imagineStep gf pol istp q.1)^[k + 1] (a, b, c)
      = ImagBehavior.imagineStep gf pol istp
          ((fun st => (ImagBehavior.imagineStep gf pol istp st).1)^[k] a) := by
  induction k generalizing a b c with
  | zero => rfl
  | succ k ih =>
    rw [Function.iterate_succ_apply'
      (fun q : List S × List GV × List A => ImagBehavior.imagineStep gf pol istp q.1)
      (k + 1) (a, b, c)]
    rw [ih a b c]
    rw [Function.iterate_succ_apply' (fun st => (ImagBehavior.imagineStep gf pol istp st).1) k a]

/-- Helper: entries of the state sequence returned by `_imagine` are the
state-only iterates of the scan step, starting from the flattened start. -/
theorem imagine_states_get? {S A : Type} (gf : S → GV) (pol : GV → A) (istp : S → A → S)
    (start : List (List S)) (h t : ℕ) (ht : t < h) :
    (ImagBehavior.imagine gf pol istp h start).2.1.get? t
      = some ((fun st => (ImagBehavior.imagineStep gf pol istp st).1)^[t] start.flatten) := by
  cases t with
  | zero => rfl
  | succ k =>
    have hs : (ImagBehavior.imagine gf pol istp h start).2.1
        = start.flatten ::
          ((static_scan (fun q : List S × List GV × List A =>
              ImagBehavior.imagineStep gf pol istp q.1) h
            (start.flatten, ([] : List GV), ([] : List A))).map (·.1)).dropLast := rfl
    rw [hs]
    have hlen : ((static_scan (fun q : List S × List GV × List A =>
        ImagBehavior.imagineStep gf pol istp q.1) h
        (start.flatten, ([] : List GV), ([] : List A))).map (·.1)).length = h := by
      rw [List.length_map, static_scan_length]
    have hget : (start.flatten ::
        ((static_scan (fun q : List S × List GV × List A =>
            ImagBehavior.imagineStep gf pol istp q.1) h
          (start.flatten, ([] : List GV), ([] : List A))).map (·.1)).dropLast).get? (k + 1)
        = ((static_scan (fun q : List S × List GV × List A =>
            ImagBehavior.imagineStep gf pol istp q.1) h
          (start.flatten, ([] : List GV), ([] : List A))).map (·.1)).dropLast.get? k := rfl
    rw [hget, dropLast_get? _ k (by rw [hlen]; exact ht), List.get?_map,
      static_scan_get? _ h k _ (Nat.lt_of_succ_lt ht), Option.map_some',
      imagineStep_iter, Function.iterate_succ_apply'
        (fun st => (ImagBehavior.imagineStep gf pol istp st).1) k start.flatten]

/-- C2 (amended): `_imagine(start, policy, h)` with `h ≥ 1` flattens the
(batch, time) leading dimensions of the start state into one flat batch,
and yields feature, state, and action sequences of length `h` (not `h + 1`):
the flattened start state is prepended to the successor-state sequence with
the final successor dropped, features and actions at each step are computed
from the state before the corresponding transition, the policy is evaluated
on detached features, and each next state is `img_step` of the previous
state and the recorded action. -/
theorem imagine_spec {S A : Type} (gf : S → GV) (pol : GV → A) (istp : S → A → S)
    (start : List (List S)) (h : ℕ) (hh : 1 ≤ h)
    (feats : List (List GV)) (states : List (List S)) (actions : List (List A))
    (heq : ImagBehavior.imagine gf pol istp h start = (feats, states, actions)) :
    feats.length = h ∧ states.length = h ∧ actions.length = h
    ∧ states.get? 0 = some start.flatten
    ∧ (∀ t st, t < h → states.get? t = some st →
        feats.get? t = some (st.map gf)
        ∧ actions.get? t = some (st.map fun s => pol ((gf s).detach)))
    ∧ (∀ t st act, t + 1 < h → states.get? t = some st → actions.get? t = some act →
        states.get? (t + 1) = some (List.zipWith istp st act)) := by
  have hf : feats = (ImagBehavior.imagine gf pol istp h start).1 := by rw [heq]
  have hs : states = (ImagBehavior.imagine gf pol istp h start).2.1 := by rw [heq]
  have ha : actions = (ImagBehavior.imagine gf pol istp h start).2.2 := by rw [heq]
  subst hf hs ha
  have hlenouts : (static_scan (fun q : List S × List GV × List A =>
      ImagBehavior.imagineStep gf pol istp q.1) h
      (start.flatten, ([] : List GV), ([] : List A))).length = h :=
    static_scan_length _ h _
  have hfeats : (ImagBehavior.imagine gf pol istp h start).1
      = (static_scan (fun q : List S × List GV × List A =>
          ImagBehavior.imagineStep gf pol istp q.1) h
          (start.flatten, ([] : List GV), ([] : List A))).map (·.2.1) := rfl
  have hacts : (ImagBehavior.imagine gf pol istp h start).2.2
      = (static_scan (fun q : List S × List GV × List A =>
          ImagBehavior.imagineStep gf pol istp q.1) h
          (start.flatten, ([] : List GV), ([] : List A))).map (·.2.2) := rfl
  have hstates : (ImagBehavior.imagine gf pol istp h start).2.1
      = start.flatten ::
        ((static_scan (fun q : List S × List GV × List A =>
            ImagBehavior.imagineStep gf pol istp q.1) h
          (start.flatten, ([] : List GV), ([] : List A))).map (·.1)).dropLast := rfl
  refine ⟨?_, ?_, ?_, rfl, ?_, ?_⟩
  · rw [hfeats, List.length_map, hlenouts]
  · rw [hstates]
    simp only [List.length_cons, List.length_dropLast, List.length_map, hlenouts]
    omega
  · rw [hacts, List.length_map, hlenouts]
  · intro t st ht hstt
    have hmaster := imagine_states_get? gf pol istp start h t ht
    rw [hstt] at hmaster
    have hst' : st = (fun st => (ImagBehavior.imagineStep gf pol istp st).1)^[t] start.flatten :=
      Option.some.inj hmaster
    constructor
    · rw [hfeats, List.get?_map, static_scan_get? _ h t _ ht, Option.map_some',
        imagineStep_iter, ← hst']
      rfl
    · rw [hacts, List.get?_map, static_scan_get? _ h t _ ht, Option.map_some',
        imagineStep_iter, ← hst']
      have hthis : (ImagBehavior.imagineStep gf pol istp st).2.2
          = st.map fun s => pol ((gf s).detach) := by
        simp [ImagBehavior.imagineStep, List.map_map, Function.comp]
      rw [hthis]
  · intro t st act ht hstt hactt
    have hmaster := imagine_states_get? gf pol istp start h t (Nat.lt_of_succ_lt ht)
    rw [hstt] at hmaster
    have hst' : st = (fun st => (ImagBehavior.imagineStep gf pol istp st).1)^[t] start.flatten :=
      Option.some.inj hmaster
    have hact' : act = (ImagBehavior.imagineStep gf pol istp st).2.2 := by
      rw [hacts, List.get?_map, static_scan_get? _ h t _ (Nat.lt_of_succ_lt ht),
        Option.map_some', imagineStep_iter, ← hst'] at hactt
      exact (Option.some.inj hactt).symm
    have hnext := imagine_states_get? gf pol istp start h (t + 1) ht
    rw [hnext, Function.iterate_succ_apply'
      (fun st => (ImagBehavior.imagineStep gf pol istp st).1) t start.flatten, ← hst', hact']
    rfl

/-- C2 counterexample: at horizon 1 the feature sequence produced by
`_imagine` has length 1, not `horizon + 1 = 2` as the claim states; the scan
collects exactly `horizon` steps and the final successor state is dropped
when the start state is prepended. -/
theorem imagine_len_counterexample :
    (ImagBehavior.imagine cGF cPol cStep 1 [[(0 : ℚ)]]).1.length ≠ 1 + 1 := by
  decide

/-- C2 witness: the amended rollout description evaluated at a concrete
start state and horizon 2. -/
theorem imagine_spec_witness :
    (ImagBehavior.imagine cGF cPol cStep 2 [[(0 : ℚ)]]).1.length = 2
    ∧ (ImagBehavior.imagine cGF cPol cStep 2 [[(0 : ℚ)]]).2.1.get? 0 = some [(0 : ℚ)] := by
  have H := imagine_spec cGF cPol cStep [[(0 : ℚ)]] 2 (by decide)
    (ImagBehavior.imagine cGF cPol cStep 2 [[(0 : ℚ)]]).1
    (ImagBehavior.imagine cGF cPol cStep 2 [[(0 : ℚ)]]).2.1
    (ImagBehavior.imagine cGF cPol cStep 2 [[(0 : ℚ)]]).2.2 rfl
  refine ⟨H.1, ?_⟩
  simpa using H.2.2.2.1

/-- C1 witness: the normalizer specification evaluated at a concrete batch
and a zeroed buffer, with the default alpha. -/
theorem rewardEMA_call_spec_witness :
    1 ≤ (RewardEMA.call (1 / 100) [[⟨2, true⟩], [⟨4, false⟩]] (GV.zero, GV.zero)).1.2.v :=
  (rewardEMA_call_spec (1 / 100) [[⟨2, true⟩], [⟨4, false⟩]] (GV.zero, GV.zero)
    _ _ _ _ (by decide) rfl).2.2.2.2.1

/-- C3 (amended): in mode `both`, both `_compute_actor_loss` implementations
return the loss `-weights[:-1] * (mix * target + (1 - mix) * reinforce_term)`
where the mixed-in dynamics-style component is the raw lambda-return target,
not the EMA-normalized advantage; the semantics are identical in
`ImagBehavior` and in the replay `Behavior` (the latter valuing with
critic 1 only, passed as the same `value` list here). -/
theorem both_mode_mixes_raw_target (reward_EMA : Bool) (alpha mix : ℚ) (ema : GV × GV)
    (target base logpi value td3value weights : List GV) :
    (ImagBehavior.compute_actor_loss reward_EMA alpha IGrad.both mix ema
        target base logpi value weights).map Prod.fst
      = Except.ok (bothActorLoss mix target logpi value weights)
    ∧ (Behavior.compute_actor_loss reward_EMA alpha MFGrad.both mix ema
        target base logpi value td3value weights).map Prod.fst
      = Except.ok (bothActorLoss mix target logpi value weights) := by
  cases reward_EMA <;> exact ⟨rfl, rfl⟩

/-- C3 counterexample: at a concrete input the `both`-mode actor loss the
code computes differs from the loss obtained by mixing the EMA-normalized
advantage as the claim states: the code yields `-4` where the claimed
formula yields `-7/2`. -/
theorem both_mode_counterexample :
    (ImagBehavior.compute_actor_loss true 1 IGrad.both (1 / 2) (GV.zero, GV.zero)
        [⟨4, false⟩] [⟨1, false⟩] [⟨1, false⟩, ⟨9, false⟩] [⟨0, false⟩]
        [⟨1, false⟩, ⟨1, false⟩]).map Prod.fst
      = Except.ok [⟨-4, false⟩]
    ∧ claimedBothActorLoss 1 (1 / 2) (GV.zero, GV.zero)
        [⟨4, false⟩] [⟨1, false⟩] [⟨1, false⟩, ⟨9, false⟩] [⟨0, false⟩]
        [⟨1, false⟩, ⟨1, false⟩]
      = [⟨-7/2, false⟩]
    ∧ ([⟨-4, false⟩] : List GV) ≠ [⟨-7/2, false⟩] := by
  refine ⟨by with_unfolding_all rfl, by with_unfolding_all rfl,
    by with_unfolding_all decide⟩

/-- C9: with `reward_EMA` disabled and gradient mode `dynamics`, both
`_compute_actor_loss` implementations fail with an unbound-local error
instead of returning a loss, because the normalized advantage is assigned
only inside the `reward_EMA` branch. -/
theorem dynamics_mode_requires_reward_ema (alpha mix : ℚ) (ema : GV × GV)
    (target base logpi value td3value weights : List GV) :
    ImagBehavior.compute_actor_loss false alpha IGrad.dynamics mix ema
        target base logpi value weights
      = Except.error PyErr.nameError
    ∧ Behavior.compute_actor_loss false alpha MFGrad.dynamics mix ema
        target base logpi value td3value weights
      = Except.error PyErr.nameError :=
  ⟨rfl, rfl⟩

/-- Helper: `cumprod` preserves length. -/
theorem cumprod_length (l : List GV) : (cumprod l).length = l.length := by
  induction l with
  | nil => rfl
  | cons x xs ih => simp [cumprod, ih]

/-- Helper: the `i`-th entry of `cumprod l` has the product of the first
`i + 1` values of `l` as its value. -/
theorem cumprod_get? (l : List GV) (i : ℕ) (h : i < l.length) :
    ∃ z : GV, (cumprod l).get? i = some z ∧ z.v = ((l.take (i + 1)).map GV.v).prod := by
  induction l generalizing i with
  | nil => simp at h
  | cons x xs ih =>
    cases i with
    | zero =>
      refine ⟨x, rfl, ?_⟩
      simp
    | succ k =>
      have hk : k < xs.length := Nat.lt_of_succ_lt_succ h
      obtain ⟨z, hz, hzv⟩ := ih k hk
      refine ⟨x * z, ?_, ?_⟩
      · have : (cumprod (x :: xs)).get? (k + 1)
            = ((cumprod xs).map (fun y => x * y)).get? k := rfl
        rw [this, List.get?_map, hz, Option.map_some']
      · have : (x * z).v = x.v * z.v := rfl
        rw [this, hzv]
        simp [List.prod_cons]

/-- Helper: `take` commutes with `dropLast` below the last index. -/
theorem take_dropLast {α : Type} (l : List α) (i : ℕ) (h : i + 1 ≤ l.length) :
    l.dropLast.take i = l.take i := by
  induction l generalizing i with
  | nil => simp at h
  | cons x xs ih =>
    cases i with
    | zero => simp
    | succ k =>
      cases xs with
      | nil => simp at h
      | cons y ys =>
        have hk : k + 1 ≤ (y :: ys).length := Nat.le_of_succ_le_succ h
        have hih := ih k hk
        simp only [List.dropLast, List.take] at hih ⊢
        rw [hih]

/-- Helper: the weights are the cumulative products of the preceding
discounts, with value `1` at index `0` and the graph flag cleared by the
final detach. -/
theorem weights_of_get? (d : List GV) (i : ℕ) (h : i < d.length) :
    (weights_of d).get? i = some ⟨((d.take i).map GV.v).prod, false⟩ := by
  cases d with
  | nil => simp at h
  | cons x xs =>
    have hl : weights_of (x :: xs)
        = (cumprod (GV.one :: (x :: xs).dropLast)).map GV.detach := rfl
    have hlen : i < (GV.one :: (x :: xs).dropLast).length := by
      simp only [List.length_cons, List.length_dropLast]
      simp only [List.length_cons] at h
      omega
    obtain ⟨z, hz, hzv⟩ := cumprod_get? (GV.one :: (x :: xs).dropLast) i hlen
    have hp : (((GV.one :: (x :: xs).dropLast).take (i + 1)).map GV.v).prod
        = (((x :: xs).take i).map GV.v).prod := by
      rw [List.take_succ_cons, List.map_cons, List.prod_cons,
        take_dropLast (x :: xs) i
          (by have h2 := h; simp only [List.length_cons] at h2 ⊢; omega)]
      simp [GV.one]
    rw [hl, List.get?_map, hz, Option.map_some']
    have : z.detach = (⟨(((x :: xs).take i).map GV.v).prod, false⟩ : GV) := by
      rw [GV.detach, hzv, hp]
    rw [this]

/-- C4: in both behaviors' `_compute_target`, the loss-aggregation weights
are the cumulative product of the discounts with `discount[0]` forced to 1:
`weights[0] = 1` and each later weight multiplies in the discounts of the
preceding timesteps; the weight tensor is detached (graph flag false). -/
theorem compute_target_weights (c lam : ℚ) (hasCont : Bool)
    (contMean value reward : List GV)
    (lam2 : ℚ) (critic1 critic2 : List GV → List GV) (feat reward2 discount2 : List GV)
    (i j : ℕ)
    (hi : i < (ImagBehavior.imag_discount c hasCont contMean reward).length)
    (hj : j < discount2.length) :
    (ImagBehavior.compute_target c lam hasCont contMean value reward).2.1.get? i
      = some ⟨(((ImagBehavior.imag_discount c hasCont contMean reward).take i).map GV.v).prod,
          false⟩
    ∧ (Behavior.compute_target lam2 critic1 critic2 feat reward2 discount2).2.1.get? j
      = some ⟨((discount2.take j).map GV.v).prod, false⟩ := by
  constructor
  · have hproj : (ImagBehavior.compute_target c lam hasCont contMean value reward).2.1
        = weights_of (ImagBehavior.imag_discount c hasCont contMean reward) := rfl
    rw [hproj]
    exact weights_of_get? _ i hi
  · have hproj : (Behavior.compute_target lam2 critic1 critic2 feat reward2 discount2).2.1
        = weights_of discount2 := rfl
    rw [hproj]
    exact weights_of_get? discount2 j hj

/-- C4 witness: the weight characterization evaluated at concrete discount
sequences of length 2 in both behaviors. -/
theorem compute_target_weights_witness :
    (ImagBehavior.compute_target (9/10) (95/100) true [⟨1, false⟩, ⟨1/2, true⟩]
        [⟨0, false⟩, ⟨0, false⟩] [⟨1, false⟩, ⟨1, false⟩]).2.1.get? 1
      = some ⟨(((ImagBehavior.imag_discount (9/10) true [⟨1, false⟩, ⟨1/2, true⟩]
          [⟨1, false⟩, ⟨1, false⟩]).take 1).map GV.v).prod, false⟩
    ∧ (Behavior.compute_target (95/100) cCrit1 cCrit2 [⟨0, false⟩, ⟨0, false⟩]
        [⟨1, false⟩, ⟨1, false⟩] [⟨1/2, false⟩, ⟨1/3, true⟩]).2.1.get? 0
      = some ⟨(([⟨1/2, false⟩, ⟨1/3, true⟩].take 0).map GV.v).prod, false⟩ :=
  compute_target_weights (9/10) (95/100) true [⟨1, false⟩, ⟨1/2, true⟩]
    [⟨0, false⟩, ⟨0, false⟩] [⟨1, false⟩, ⟨1, false⟩]
    (95/100) cCrit1 cCrit2 [⟨0, false⟩, ⟨0, false⟩]
    [⟨1, false⟩, ⟨1, false⟩] [⟨1/2, false⟩, ⟨1/3, true⟩] 1 0
    (by with_unfolding_all decide) (by with_unfolding_all decide)

/-- C6: in the replay behavior's `_compute_target`, the value sequence fed
into the lambda-return computation (and the returned baseline and bootstrap)
is the elementwise minimum of critic 1's mode and critic 2's mode evaluated
on the same features; and wherever the two modes differ, that minimum is
neither their mean nor their maximum. -/
theorem behavior_target_uses_twin_min (lam : ℚ) (critic1 critic2 : List GV → List GV)
    (feat reward discount : List GV) :
    Behavior.compute_target lam critic1 critic2 feat reward discount
      = (lambdaReturn lam (reward.drop 1)
          ((List.zipWith GV.min (critic1 feat) (critic2 feat)).dropLast) (discount.drop 1)
          (((List.zipWith GV.min (critic1 feat) (critic2 feat)).getLast?).getD GV.zero),
        weights_of discount,
        (List.zipWith GV.min (critic1 feat) (critic2 feat)).dropLast)
    ∧ (∀ a b : GV, a.v ≠ b.v →
        (GV.min a b).v ≠ (twinMean a b).v ∧ (GV.min a b).v ≠ (twinMax a b).v) := by
  refine ⟨rfl, ?_⟩
  intro a b hab
  have hlt : Min.min a.v b.v < Max.max a.v b.v := min_lt_max.mpr hab
  have hsum : Min.min a.v b.v + Max.max a.v b.v = a.v + b.v := min_add_max a.v b.v
  constructor
  · intro hEq
    have hEq2 : Min.min a.v b.v = (a.v + b.v) / 2 := hEq
    linarith
  · intro hEq
    have hEq2 : Min.min a.v b.v = Max.max a.v b.v := hEq
    exact absurd hEq2 (ne_of_lt hlt)

/-- C6 witness: the min-not-mean-not-max distinction evaluated at two
concrete critic modes that differ. -/
theorem behavior_target_uses_twin_min_witness :
    (GV.min ⟨0, false⟩ ⟨1, false⟩).v ≠ (twinMean ⟨0, false⟩ ⟨1, false⟩).v
    ∧ (GV.min ⟨0, false⟩ ⟨1, false⟩).v ≠ (twinMax ⟨0, false⟩ ⟨1, false⟩).v :=
  (behavior_target_uses_twin_min 1 cCrit1 cCrit2 [] [] []).2 ⟨0, false⟩ ⟨1, false⟩
    (by with_unfolding_all decide)

/-- Helper: entries of a `zipWith`. -/
theorem zipWith_get?_eq {α β γ : Type} (f : α → β → γ) (l1 : List α) (l2 : List β)
    (i : ℕ) (a : α) (b : β) (h1 : l1.get? i = some a) (h2 : l2.get? i = some b) :
    (List.zipWith f l1 l2).get? i = some (f a b) := by
  induction l1 generalizing l2 i with
  | nil => simp at h1
  | cons x xs ih =>
    cases l2 with
    | nil => simp at h2
    | cons y ys =>
      cases i with
      | zero =>
        simp only [List.get?] at h1 h2
        obtain rfl := Option.some.inj h1
        obtain rfl := Option.some.inj h2
        rfl
      | succ k =>
        simp only [List.get?] at h1 h2
        simpa using ih ys k h1 h2

/-- C5 (amended): the speculative extra step of `Behavior._data_sample`
samples an action from the actor on the real posterior features, adds the
noise `(u * 0.2).clamp(-0.5, 0.5)` for a uniform draw `u` from `[0, 1)` —
the clamp applies to the scaled draw, where it is a no-op, so the noise lies
in `[0, 0.2]` and the summed action itself is not clipped — then advances
one step via `img_step` and reads the next-step features. -/
theorem speculative_step_spec {S : Type} (gf : S → GV) (istp : S → ℚ → S)
    (asample : GV → ℚ) (states : List S) (us : List ℚ) (i : ℕ)
    (hi : i < states.length) (hu : i < us.length) :
    (Behavior.speculative_step gf istp asample states us).get? i
      = some (gf (istp (states.get ⟨i, hi⟩)
          (asample (gf (states.get ⟨i, hi⟩)) + Behavior.noise_of (us.get ⟨i, hu⟩))))
    ∧ (∀ u : ℚ, 0 ≤ u → u < 1 →
        0 ≤ Behavior.noise_of u ∧ Behavior.noise_of u ≤ 1 / 5) := by
  constructor
  · have hst : states.get? i = some (states.get ⟨i, hi⟩) := List.get?_eq_get hi
    have hus : us.get? i = some (us.get ⟨i, hu⟩) := List.get?_eq_get hu
    have hfeat : (states.map gf).get? i = some (gf (states.get ⟨i, hi⟩)) := by
      rw [List.get?_map, hst, Option.map_some']
    have hnoise : (us.map Behavior.noise_of).get? i
        = some (Behavior.noise_of (us.get ⟨i, hu⟩)) := by
      rw [List.get?_map, hus, Option.map_some']
    have hna : (List.zipWith (fun f n => asample f + n) (states.map gf)
        (us.map Behavior.noise_of)).get? i
        = some (asample (gf (states.get ⟨i, hi⟩)) + Behavior.noise_of (us.get ⟨i, hu⟩)) :=
      zipWith_get?_eq _ _ _ i _ _ hfeat hnoise
    have hns : (List.zipWith istp states
        (List.zipWith (fun f n => asample f + n) (states.map gf)
          (us.map Behavior.noise_of))).get? i
        = some (istp (states.get ⟨i, hi⟩)
            (asample (gf (states.get ⟨i, hi⟩)) + Behavior.noise_of (us.get ⟨i, hu⟩))) :=
      zipWith_get?_eq _ _ _ i _ _ hst hna
    have hproj : Behavior.speculative_step gf istp asample states us
        = (List.zipWith istp states
            (List.zipWith (fun f n => asample f + n) (states.map gf)
              (us.map Behavior.noise_of))).map gf := rfl
    rw [hproj, List.get?_map, hns, Option.map_some']
  · intro u h0 h1
    have hmin : 0 ≤ Min.min (u * (1 / 5)) (1 / 2) := le_min (by nlinarith) (by norm_num)
    constructor
    · exact le_trans hmin (le_max_right _ _)
    · refine max_le (by norm_num) (le_trans (min_le_left _ _) (by nlinarith))

/-- C5 counterexample: no uniform draw from `[0, 1)` can produce the noise
value `-1/4`, although `-1/4` lies inside the claimed uniform noise range
`[-0.5, 0.5]`: the code's noise `(u * 0.2).clamp(-0.5, 0.5)` is never
negative. -/
theorem noise_attains_counterexample : ¬ Behavior.noise_attains (-(1 / 4)) := by
  rintro ⟨u, h0, _, he⟩
  have hmin : 0 ≤ Min.min (u * (1 / 5)) (1 / 2) := le_min (by nlinarith) (by norm_num)
  have h2 : 0 ≤ Behavior.noise_of u := by
    unfold Behavior.noise_of clampQ
    exact le_trans hmin (le_max_right _ _)
  rw [he] at h2
  norm_num at h2

/-- C5 witness: the amended speculative-step description evaluated at one
concrete state, draw, and dynamics. -/
theorem speculative_step_spec_witness :
    (Behavior.speculative_step cGF cStep cPol [(1 : ℚ)] [(1 / 2 : ℚ)]).get? 0
      = some (cGF (cStep ([(1 : ℚ)].get ⟨0, by decide⟩)
          (cPol (cGF ([(1 : ℚ)].get ⟨0, by decide⟩))
            + Behavior.noise_of ([(1 / 2 : ℚ)].get ⟨0, by decide⟩))))
    ∧ (0 ≤ Behavior.noise_of (1 / 2) ∧ Behavior.noise_of (1 / 2) ≤ 1 / 5) :=
  ⟨(speculative_step_spec cGF cStep cPol [(1 : ℚ)] [(1 / 2 : ℚ)] 0
      (by decide) (by decide)).1,
   (speculative_step_spec cGF cStep cPol [(1 : ℚ)] [(1 / 2 : ℚ)] 0
      (by decide) (by decide)).2 (1 / 2) (by norm_num) (by norm_num)⟩

/-- C7: `WorldModel.preprocess` fails, with an assertion error and in no
other way, exactly when `is_first` or `is_terminal` is absent; when both are
present it returns the batch with the image divided by 255, the discount
field (if present) multiplied by the configured discount factor and given a
trailing singleton dimension, and a `cont = 1 - is_terminal` field with a
trailing singleton dimension. -/
theorem preprocess_spec (c : ℚ) (obs : Obs) :
    (∀ e, WorldModel.preprocess c obs = Except.error e →
        e = PyErr.assertionError ∧ (obs.is_first = none ∨ obs.is_terminal = none))
    ∧ ((obs.is_first = none ∨ obs.is_terminal = none) →
        WorldModel.preprocess c obs = Except.error PyErr.assertionError)
    ∧ (∀ isf ist, obs.is_first = some isf → obs.is_terminal = some ist →
        WorldModel.preprocess c obs = Except.ok
          { image := obs.image.mapData (fun p => p / 255),
            discount := obs.discount.map
              (fun d => (d.mapData (fun q => q * c)).unsqueezeLast),
            cont := (ist.mapData (fun q => 1 - q)).unsqueezeLast,
            is_first := isf, is_terminal := ist }) := by
  rcases h1 : obs.is_first with _ | isf0
  · have hpre : WorldModel.preprocess c obs = Except.error PyErr.assertionError := by
      simp [WorldModel.preprocess, h1]
    refine ⟨?_, fun _ => hpre, ?_⟩
    · intro e he
      rw [hpre] at he
      exact ⟨(Except.error.inj he).symm, Or.inl rfl⟩
    · intro isf ist hf _
      exact absurd hf (by simp)
  · rcases h2 : obs.is_terminal with _ | ist0
    · have hpre : WorldModel.preprocess c obs = Except.error PyErr.assertionError := by
        simp [WorldModel.preprocess, h1, h2]
      refine ⟨?_, fun _ => hpre, ?_⟩
      · intro e he
        rw [hpre] at he
        exact ⟨(Except.error.inj he).symm, Or.inr rfl⟩
      · intro isf ist _ ht
        exact absurd ht (by simp)
    · have hpre : WorldModel.preprocess c obs = Except.ok
          { image := obs.image.mapData (fun p => p / 255),
            discount := obs.discount.map
              (fun d => (d.mapData (fun q => q * c)).unsqueezeLast),
            cont := (ist0.mapData (fun q => 1 - q)).unsqueezeLast,
            is_first := isf0, is_terminal := ist0 } := by
        simp [WorldModel.preprocess, h1, h2]
      refine ⟨?_, ?_, ?_⟩
      · intro e he
        rw [hpre] at he
        exact absurd he (by simp)
      · intro hor
        rcases hor with h | h
        · exact absurd h (by simp)
        · exact absurd h (by simp)
      · intro isf ist hf ht
        obtain rfl := Option.some.inj hf
        obtain rfl := Option.some.inj ht
        exact hpre

/-- C7 witness: `preprocess` evaluated on a concrete batch with both flags
present, and on a concrete batch with `is_first` missing. -/
theorem preprocess_spec_witness :
    WorldModel.preprocess (9 / 10) cObs = Except.ok
      { image := cObs.image.mapData (fun p => p / 255),
        discount := cObs.discount.map
          (fun d => (d.mapData (fun q => q * (9 / 10))).unsqueezeLast),
        cont := ((⟨[2], [0, 1]⟩ : PTensor).mapData (fun q => 1 - q)).unsqueezeLast,
        is_first := ⟨[2], [1, 0]⟩, is_terminal := ⟨[2], [0, 1]⟩ }
    ∧ WorldModel.preprocess (9 / 10) cObsMissing = Except.error PyErr.assertionError :=
  ⟨(preprocess_spec (9 / 10) cObs).2.2 ⟨[2], [1, 0]⟩ ⟨[2], [0, 1]⟩ rfl rfl,
   (preprocess_spec (9 / 10) cObsMissing).2.1 (Or.inl rfl)⟩

/-- C8: with `slow_target` disabled, the `_slow_value` attribute(s) are never
created by the constructor, yet the critic-loss phase of `_train` evaluates
them unconditionally, so every call fails with an attribute error before
completing the critic update — in `ImagBehavior` and in the replay
`Behavior` alike. -/
theorem slow_value_attribute_error (v v1 v2 : Critic)
    (vi tg w vi2 tg2 w2 : List GV) :
    ImagBehavior.value_loss_phase false (ImagBehavior.init_slow_value false v) v vi tg w
      = Except.error PyErr.attributeError
    ∧ Behavior.value_loss_phase false (Behavior.init_slow_value false v1)
        (Behavior.init_slow_value false v2) v1 v2 vi2 tg2 w2
      = Except.error PyErr.attributeError :=
  ⟨rfl, rfl⟩

/-- C10: `Behavior._train` computes `actor_loss` only when the incremented
call counter is divisible by `mf_policy_freq`, but steps the actor optimizer
whenever the counter is even; a call whose counter is even but not divisible
by `mf_policy_freq` therefore fails on the never-assigned `actor_loss`,
while even-and-divisible calls step the actor and odd calls skip it. -/
theorem train_throttle_spec (freq prev : ℕ) (hf : 0 < freq) :
    ((prev + 1) % 2 = 0 → (prev + 1) % freq ≠ 0 →
      Behavior.train_throttle freq prev = Except.error PyErr.nameError)
    ∧ ((prev + 1) % 2 = 0 → (prev + 1) % freq = 0 →
      Behavior.train_throttle freq prev = Except.ok (prev + 1, true))
    ∧ ((prev + 1) % 2 ≠ 0 →
      Behavior.train_throttle freq prev = Except.ok (prev + 1, false)) := by
  refine ⟨?_, ?_, ?_⟩
  · intro h2 hfne
    simp [Behavior.train_throttle, h2, hfne]
  · intro h2 hfe
    simp [Behavior.train_throttle, h2, hfe]
  · intro h2
    simp [Behavior.train_throttle, h2]

/-- C10 witness: with `mf_policy_freq = 3`, the second call (counter 2, even
but not divisible by 3) fails with the unbound-local error. -/
theorem train_throttle_spec_witness :
    Behavior.train_throttle 3 1 = Except.error PyErr.nameError :=
  (train_throttle_spec 3 1 (by decide)).1 (by decide) (by decide)
